import Mathlib

/-!
A shallow embedding of `nce.py` (Noise Contrastive Estimation for PyTorch):
the `NCELoss` module and its companion `IndexLinear` indexed projection.

Tensors are modelled over the reals: a vector is a `List ℝ`, a matrix a
`List (List ℝ)` (rows), and integer index tensors are `List ℕ`.  The random
draws of `torch.multinomial` are passed in explicitly as an oracle
(`samples`, one list of `noise_ratio` indices per example), so that the
deterministic numeric pipeline of `NCELoss.forward` can be studied as a
function.  Fallible steps (the shape assert, the `.cuda()` calls, the
validation performed by `torch.multinomial`, the tensor truth test in
`__init__`) are modelled with `Except String`.
-/

/-- Dot product of two real vectors, `torch`-style (pairs beyond the shorter
length contribute nothing). -/
noncomputable def dot (xs ys : List ℝ) : ℝ :=
  (List.zipWith (fun a b => a * b) xs ys).sum

/-- Configuration and parameters of an `NCELoss` module: the decoder weight
(`ntokens` rows of length `emb_size`) and bias of the inner `IndexLinear`,
the noise distribution (one weight per vocabulary token), the noise ratio
`k`, the normalization term `lnZ`, and the `size_average` flag. -/
structure NCEConfig where
  weight : List (List ℝ)
  bias : List ℝ
  noise : List ℝ
  noise_ratio : ℕ
  norm_term : ℝ
  size_average : Bool

/-- `IndexLinear.forward`: gather the rows `self.weight[indices]` and the
entries `self.bias[indices]` and apply `F.linear` to a single embedding,
producing one logit per requested index (`dot(input, weight[i]) + bias[i]`).
Out-of-range gathers default to an empty row / zero bias. -/
noncomputable def IndexLinear_forward (weight : List (List ℝ)) (bias : List ℝ)
    (input : List ℝ) (indices : List ℕ) : List ℝ :=
  List.zipWith (fun wrow b => dot input wrow + b)
    (indices.map (fun i => weight.getD i []))
    (indices.map (fun i => bias.getD i 0))

/-- The full dense `V`-length projection `dot(input, weight[i]) + bias[i]`
for every vocabulary index `i`, which `IndexLinear` avoids computing. -/
noncomputable def denseProjection (weight : List (List ℝ)) (bias : List ℝ)
    (input : List ℝ) : List ℝ :=
  (List.range weight.length).map (fun i => dot input (weight.getD i []) + bias.getD i 0)

/-- The logit the decoder assigns to one vocabulary index. -/
noncomputable def projOne (cfg : NCEConfig) (emb : List ℝ) (i : ℕ) : ℝ :=
  dot emb (cfg.weight.getD i []) + cfg.bias.getD i 0

/-- `probs.sub(self.norm_term).exp()` applied to one logit: the unnormalized
pseudo-probability `exp(logit - norm_term)`. -/
noncomputable def probTransform (cfg : NCEConfig) (logit : ℝ) : ℝ :=
  Real.exp (logit - cfg.norm_term)

/-- `torch.cat([target_idx.data, noise_idx])`: the combined index list that
`NCELoss._get_prob` hands to the decoder, target first. -/
def combinedIndices (target_idx : ℕ) (noise_idx : List ℕ) : List ℕ :=
  [target_idx] ++ noise_idx

/-- `NCELoss._get_prob`: project the embedding on the combined index list,
apply the `exp(. - norm_term)` transform, and split the result into the
target pseudo-probability (`probs[0]`) and the noise pseudo-probabilities
(`probs[1:]`). -/
noncomputable def get_prob (cfg : NCEConfig) (embedding : List ℝ)
    (target_idx : ℕ) (noise_idx : List ℕ) : ℝ × List ℝ :=
  let indices := combinedIndices target_idx noise_idx
  let probs := (IndexLinear_forward cfg.weight cfg.bias embedding indices).map
    (probTransform cfg)
  (probs.headD 0, probs.tail)

/-- Validity condition that `torch.multinomial` enforces on its weight
vector: all weights non-negative and a positive total mass. -/
def noiseValid (noise : List ℝ) : Prop :=
  (∀ x ∈ noise, 0 ≤ x) ∧ 0 < noise.sum

noncomputable instance (noise : List ℝ) : Decidable (noiseValid noise) :=
  Classical.propDecidable _

/-- Error raised by the `assert input.size(0) == target.size(0)` guard. -/
def assertionMsg : String := "AssertionError"

/-- Error raised by the `.cuda()` / `torch.cuda.synchronize()` calls when no
CUDA execution context is available. -/
def cudaMsg : String := "RuntimeError: CUDA context unavailable"

/-- Error raised by `torch.multinomial` on an invalid weight vector. -/
def multinomialMsg : String := "RuntimeError: invalid multinomial distribution"

/-- Error raised by `Tensor.__bool__` on a tensor whose element count is not
exactly one. -/
def ambiguousMsg : String := "RuntimeError: bool value of Tensor is ambiguous"

/-- The elementwise function of `rnn_loss`: for one example,
`log(data_prob / (data_prob + noise_ratio * noise[target]))`. -/
noncomputable def rnnLossTerm (cfg : NCEConfig) (dp : ℝ) (t : ℕ) : ℝ :=
  Real.log (dp / (dp + (cfg.noise_ratio : ℝ) * cfg.noise.getD t 0))

/-- The elementwise function of `noise_loss`: for one noise sample with
model pseudo-probability `pd` and noise probability `pn`,
`log((noise_ratio * pn) / (pd + noise_ratio * pn))`. -/
noncomputable def noiseLossTerm (cfg : NCEConfig) (pd pn : ℝ) : ℝ :=
  Real.log (((cfg.noise_ratio : ℝ) * pn) / (pd + (cfg.noise_ratio : ℝ) * pn))

/-- `NCELoss.forward`.  `cuda` says whether a CUDA execution context is
available (the code unconditionally moves its buffers to CUDA and calls
`torch.cuda.synchronize()`).  `samples` is the oracle of noise draws: the
row `torch.multinomial(self.noise, self.noise_ratio, replacement=True)`
returns for each example.  Steps, in source order: the shape assert; the
buffer allocation on CUDA; the per-example loop filling `data_prob`,
`noise_in_data_probs` and `noise_probs` (where `torch.multinomial` rejects
an invalid noise vector as soon as the loop body runs); then the vectorized
`rnn_loss`, `noise_loss`, negated sum, and optional size-averaging. -/
noncomputable def NCELoss_forward (cuda : Bool) (cfg : NCEConfig)
    (input : List (List ℝ)) (target : List ℕ) (samples : List (List ℕ)) :
    Except String ℝ :=
  if input.length ≠ target.length then Except.error assertionMsg
  else if cuda = false then Except.error cudaMsg
  else if target.length ≠ 0 ∧ ¬ noiseValid cfg.noise then Except.error multinomialMsg
  else
    let rows := List.zip input (List.zip target samples)
    let data_prob := rows.map (fun r => (get_prob cfg r.1 r.2.1 r.2.2).1)
    let noise_in_data_probs := rows.map (fun r => (get_prob cfg r.1 r.2.1 r.2.2).2)
    let noise_probs := rows.map (fun r => r.2.2.map (fun j => cfg.noise.getD j 0))
    let rnn_loss := List.zipWith (rnnLossTerm cfg) data_prob target
    let noise_loss := List.zipWith
      (fun pds pns => (List.zipWith (noiseLossTerm cfg) pds pns).sum)
      noise_in_data_probs noise_probs
    let loss := -1 * (List.zipWith (fun a b => a + b) rnn_loss noise_loss).sum
    Except.ok (if cfg.size_average then loss / (target.length : ℝ) else loss)

/-- The target pseudo-probability of the spec: the exp-transformed logit of
index `i` under the model. -/
noncomputable def pseudoProb (cfg : NCEConfig) (emb : List ℝ) (i : ℕ) : ℝ :=
  probTransform cfg (projOne cfg emb i)

/-- Per-example data term, stated as in the spec:
`log(data_prob / (data_prob + K * noise_probability(target)))`. -/
noncomputable def dataTermSpec (cfg : NCEConfig) (emb : List ℝ) (t : ℕ) : ℝ :=
  Real.log (pseudoProb cfg emb t /
    (pseudoProb cfg emb t + (cfg.noise_ratio : ℝ) * cfg.noise.getD t 0))

/-- Per-example noise term, stated as in the spec: the sum over the noise
draws of `log((K * noise_prob) / (noise_in_data_prob + K * noise_prob))`. -/
noncomputable def noiseTermSpec (cfg : NCEConfig) (emb : List ℝ) (ns : List ℕ) : ℝ :=
  (ns.map (fun j => Real.log (((cfg.noise_ratio : ℝ) * cfg.noise.getD j 0) /
    (pseudoProb cfg emb j + (cfg.noise_ratio : ℝ) * cfg.noise.getD j 0)))).sum

/-- The loss as the spec words it: `-( Σ over examples of data_term +
noise_term )`, divided by the batch size when size-averaging is enabled. -/
noncomputable def specLoss (cfg : NCEConfig) (input : List (List ℝ))
    (target : List ℕ) (samples : List (List ℕ)) : ℝ :=
  let total := -(((List.zip input (List.zip target samples)).map
    (fun r => dataTermSpec cfg r.1 r.2.1 + noiseTermSpec cfg r.1 r.2.2)).sum)
  if cfg.size_average then total / (target.length : ℝ) else total

/- ### Structural lemmas about the projection and `_get_prob` -/

lemma IndexLinear_forward_eq_map (weight : List (List ℝ)) (bias : List ℝ)
    (input : List ℝ) (indices : List ℕ) :
    IndexLinear_forward weight bias input indices =
      indices.map (fun i => dot input (weight.getD i []) + bias.getD i 0) := by
  unfold IndexLinear_forward
  rw [List.zipWith_map, List.zipWith_same]

lemma get_prob_fst (cfg : NCEConfig) (emb : List ℝ) (t : ℕ) (ns : List ℕ) :
    (get_prob cfg emb t ns).1 = pseudoProb cfg emb t := by
  simp only [get_prob, combinedIndices, IndexLinear_forward_eq_map, pseudoProb, projOne]
  simp

lemma get_prob_snd (cfg : NCEConfig) (emb : List ℝ) (t : ℕ) (ns : List ℕ) :
    (get_prob cfg emb t ns).2 = ns.map (fun j => pseudoProb cfg emb j) := by
  simp only [get_prob, combinedIndices, IndexLinear_forward_eq_map, pseudoProb, projOne]
  simp [Function.comp]

lemma denseProjection_getD (weight : List (List ℝ)) (bias : List ℝ) (input : List ℝ)
    (i : ℕ) (h : i < weight.length) :
    (denseProjection weight bias input).getD i 0 =
      dot input (weight.getD i []) + bias.getD i 0 := by
  have hlen : i < (denseProjection weight bias input).length := by
    simpa [denseProjection] using h
  rw [List.getD_eq_getElem _ _ hlen]
  simp [denseProjection]

/-- C2: on any index list whose entries are in range, `IndexLinear.forward`
returns exactly one entry per requested index (repeats projected
independently), and those entries are the gather of the requested indices
from the full dense projection of the same weight and bias. -/
theorem C2_indexed_projection_refines_dense (weight : List (List ℝ)) (bias : List ℝ)
    (input : List ℝ) (indices : List ℕ)
    (h : ∀ i ∈ indices, i < weight.length) :
    (IndexLinear_forward weight bias input indices).length = indices.length ∧
    IndexLinear_forward weight bias input indices =
      indices.map (fun i => (denseProjection weight bias input).getD i 0) := by
  constructor
  · rw [IndexLinear_forward_eq_map, List.length_map]
  · rw [IndexLinear_forward_eq_map]
    exact List.map_congr_left fun i hi => (denseProjection_getD weight bias input i (h i hi)).symm

theorem C2_witness :
    (∀ i ∈ ([1, 1, 0] : List ℕ), i < ([[1, 0], [0, 1]] : List (List ℝ)).length) ∧
    IndexLinear_forward [[1, 0], [0, 1]] [5, 7] [2, 3] [1, 1, 0] =
      ([1, 1, 0] : List ℕ).map
        (fun i => (denseProjection [[1, 0], [0, 1]] [5, 7] [2, 3]).getD i 0) :=
  ⟨by decide, (C2_indexed_projection_refines_dense _ _ _ _ (by decide)).2⟩

/-- C3: `_get_prob` evaluates the projection on exactly `1 + K` indices,
the target at position 0 followed by the `K` noise draws in order; the
outputs are the elementwise `exp(logit - norm_term)` transform of the
corresponding logits, with the target pseudo-probability first and the
noise pseudo-probabilities following in draw order. -/
theorem C3_get_prob_layout (cfg : NCEConfig) (emb : List ℝ) (t : ℕ) (ns : List ℕ) :
    combinedIndices t ns = t :: ns ∧
    (combinedIndices t ns).length = 1 + ns.length ∧
    (get_prob cfg emb t ns).1 = probTransform cfg (projOne cfg emb t) ∧
    (get_prob cfg emb t ns).2 = ns.map (fun j => probTransform cfg (projOne cfg emb j)) := by
  refine ⟨rfl, ?_, get_prob_fst cfg emb t ns, get_prob_snd cfg emb t ns⟩
  simp [combinedIndices, Nat.add_comm]

/- ### Per-example and batch lemmas towards the loss formula -/

lemma rnn_term_eq (cfg : NCEConfig) (e : List ℝ) (t : ℕ) (s : List ℕ) :
    rnnLossTerm cfg (get_prob cfg e t s).1 t = dataTermSpec cfg e t := by
  rw [get_prob_fst]
  rfl

lemma noise_term_eq (cfg : NCEConfig) (e : List ℝ) (t : ℕ) (s : List ℕ) :
    (List.zipWith (noiseLossTerm cfg) (get_prob cfg e t s).2
      (s.map (fun j => cfg.noise.getD j 0))).sum = noiseTermSpec cfg e s := by
  rw [get_prob_snd, List.zipWith_map, List.zipWith_same]
  rfl

lemma batch_sum_eq (cfg : NCEConfig) :
    ∀ (input : List (List ℝ)) (target : List ℕ) (samples : List (List ℕ)),
      input.length = target.length → samples.length = target.length →
      (List.zipWith (fun a b => a + b)
        (List.zipWith (rnnLossTerm cfg)
          ((List.zip input (List.zip target samples)).map
            (fun r => (get_prob cfg r.1 r.2.1 r.2.2).1)) target)
        (List.zipWith (fun pds pns => (List.zipWith (noiseLossTerm cfg) pds pns).sum)
          ((List.zip input (List.zip target samples)).map
            (fun r => (get_prob cfg r.1 r.2.1 r.2.2).2))
          ((List.zip input (List.zip target samples)).map
            (fun r => r.2.2.map (fun j => cfg.noise.getD j 0))))).sum
      = ((List.zip input (List.zip target samples)).map
          (fun r => dataTermSpec cfg r.1 r.2.1 + noiseTermSpec cfg r.1 r.2.2)).sum := by
  intro input
  induction input with
  | nil =>
    intro target samples h1 _
    obtain rfl : target = [] := by
      cases target with
      | nil => rfl
      | cons t ts => simp at h1
    simp
  | cons e es ih =>
    intro target samples h1 h2
    cases target with
    | nil => simp at h1
    | cons t ts =>
      cases samples with
      | nil => simp at h2
      | cons s ss =>
        simp only [List.zip_cons_cons, List.map_cons, List.zipWith_cons_cons, List.sum_cons]
        rw [rnn_term_eq, noise_term_eq,
          ih ts ss (by simpa using h1) (by simpa using h2)]

/-- C1: when the shapes agree and the noise distribution is one that
`torch.multinomial` accepts, `NCELoss.forward` returns exactly
`-( Σ over examples of data_term + noise_term )` with
`data_term = log(data_prob / (data_prob + K * noise[target]))` and
`noise_term = Σ_j log((K * noise_prob_j) / (noise_in_data_prob_j + K *
noise_prob_j))`, divided by the batch size when `size_average` is set. -/
theorem C1_forward_loss_formula (cfg : NCEConfig) (input : List (List ℝ))
    (target : List ℕ) (samples : List (List ℕ))
    (hlen : input.length = target.length) (hsam : samples.length = target.length)
    (hnoise : noiseValid cfg.noise) :
    NCELoss_forward true cfg input target samples =
      Except.ok (specLoss cfg input target samples) := by
  unfold NCELoss_forward specLoss
  rw [if_neg (by simp [hlen]), if_neg (by simp), if_neg (fun h => h.2 hnoise)]
  have hb := batch_sum_eq cfg input target samples hlen hsam
  simp only []
  rw [hb, neg_one_mul]

lemma noiseValid_half : noiseValid [(1 : ℝ) / 2, 1 / 2] := by
  constructor
  · intro x hx
    simp at hx
    norm_num [hx]
  · norm_num

theorem C1_witness :
    ([[1, 2]] : List (List ℝ)).length = ([0] : List ℕ).length ∧
    ([[1, 0]] : List (List ℕ)).length = ([0] : List ℕ).length ∧
    noiseValid [(1 : ℝ) / 2, 1 / 2] ∧
    NCELoss_forward true ⟨[[1, 0], [0, 1]], [0, 0], [1 / 2, 1 / 2], 2, 9, true⟩
        [[1, 2]] [0] [[1, 0]] =
      Except.ok (specLoss ⟨[[1, 0], [0, 1]], [0, 0], [1 / 2, 1 / 2], 2, 9, true⟩
        [[1, 2]] [0] [[1, 0]]) :=
  ⟨by decide, by decide, noiseValid_half,
    C1_forward_loss_formula _ _ _ _ (by decide) (by decide) noiseValid_half⟩

/-- C4: with identical inputs and noise draws, the loss computed with
`size_average` enabled equals the loss computed with it disabled, divided by
the batch size, for batches of size at least 1 (errors are unaffected by
the flag). -/
theorem C4_size_average_divides (cfg : NCEConfig) (cuda : Bool)
    (input : List (List ℝ)) (target : List ℕ) (samples : List (List ℕ))
    (h : 1 ≤ target.length) :
    NCELoss_forward cuda { cfg with size_average := true } input target samples =
      (NCELoss_forward cuda { cfg with size_average := false } input target samples).map
        (fun r => r / (target.length : ℝ)) := by
  obtain ⟨w, b, nz, k, nt, sa⟩ := cfg
  unfold NCELoss_forward
  dsimp only
  split_ifs <;>
    first
      | rfl
      | exact absurd rfl (by assumption)
      | exact False.elim (by assumption)

theorem C4_witness :
    1 ≤ ([0] : List ℕ).length ∧
    NCELoss_forward true ⟨[[1]], [0], [1], 1, 9, true⟩ [[1]] [0] [[0]] =
      (NCELoss_forward true ⟨[[1]], [0], [1], 1, 9, false⟩ [[1]] [0] [[0]]).map
        (fun r => r / (([0] : List ℕ).length : ℝ)) :=
  ⟨by decide,
    C4_size_average_divides ⟨[[1]], [0], [1], 1, 9, true⟩ true [[1]] [0] [[0]] (by decide)⟩

/-- C5: a batch-size mismatch between `input` and `target` is rejected by
the leading `assert`, before any other step of `forward` runs. -/
theorem C5_shape_mismatch_rejected (cuda : Bool) (cfg : NCEConfig)
    (input : List (List ℝ)) (target : List ℕ) (samples : List (List ℕ))
    (h : input.length ≠ target.length) :
    NCELoss_forward cuda cfg input target samples = Except.error assertionMsg := by
  unfold NCELoss_forward
  rw [if_pos h]

theorem C5_witness :
    ([[1], [2]] : List (List ℝ)).length ≠ ([0] : List ℕ).length ∧
    NCELoss_forward false ⟨[[1]], [0], [1], 1, 9, true⟩ [[1], [2]] [0] [[0]] =
      Except.error assertionMsg :=
  ⟨by decide, C5_shape_mismatch_rejected false _ _ _ _ (by decide)⟩

/- ### Construction (`NCELoss.__init__`) and the tied-weight truth test -/

/-- Total number of elements of a matrix tensor. -/
def numel (t : List (List ℝ)) : ℕ := (t.map List.length).sum

/-- Modelled from PyTorch semantics of `Tensor.__bool__`, which the source
invokes through `if decoder_weight:`: a tensor with exactly one element
converts to the truth of that element being nonzero; any other element
count raises `RuntimeError` (ambiguous boolean value). -/
noncomputable def tensorBool (t : List (List ℝ)) : Except String Bool :=
  if numel t = 1 then
    if t.flatten.headD 0 = 0 then Except.ok false else Except.ok true
  else Except.error ambiguousMsg

/-- `NCELoss.__init__`: store the noise distribution (unvalidated), the
noise ratio (source default 10), the normalization term (source default 9)
and the `size_average` flag (source default `True`); build the inner
`IndexLinear` decoder, whose randomly initialized parameters are passed
here explicitly as `fresh_weight` / `fresh_bias`; then run the weight-tying
branch `if decoder_weight: self.decoder.weight = decoder_weight`, whose
condition converts the tensor to a boolean. -/
noncomputable def NCELoss_init (ntokens emb_size : ℕ) (noise : List ℝ)
    (noise_ratio : ℕ) (norm_term : ℝ) (size_average : Bool)
    (decoder_weight : Option (List (List ℝ)))
    (fresh_weight : List (List ℝ)) (fresh_bias : List ℝ) :
    Except String NCEConfig :=
  match decoder_weight with
  | none => Except.ok ⟨fresh_weight, fresh_bias, noise, noise_ratio, norm_term, size_average⟩
  | some w =>
    match tensorBool w with
    | Except.error e => Except.error e
    | Except.ok true => Except.ok ⟨w, fresh_bias, noise, noise_ratio, norm_term, size_average⟩
    | Except.ok false => Except.ok ⟨fresh_weight, fresh_bias, noise, noise_ratio, norm_term, size_average⟩

/-- C6: constructing `NCELoss` with a tied decoder weight of the usual
`V x E` shape (more than one element) does not succeed: the guard
`if decoder_weight:` converts the tensor to a boolean, which raises the
ambiguous-truth-value `RuntimeError`, so the tied weight is never
installed. -/
theorem C6_tied_weight_construction_raises :
    NCELoss_init 2 2 [1 / 2, 1 / 2] 10 9 true (some [[1, 0], [0, 1]])
      [[0, 0], [0, 0]] [0, 0] = Except.error ambiguousMsg := by
  norm_num [NCELoss_init, tensorBool, numel]

/- ### Monotonic discrimination (data term vs target logit) -/

/-- C7 counterexample: with the legal noise distribution `[0, 1]` and target
index 0 (noise probability zero), the negated data term is constantly zero,
so raising the target logit from 0 to 1 does not strictly decrease it. -/
theorem C7_counterexample :
    (0 : ℝ) < 1 ∧
    ¬ (-(rnnLossTerm ⟨[], [], [0, 1], 10, 0, true⟩
          (probTransform ⟨[], [], [0, 1], 10, 0, true⟩ 1) 0) <
       -(rnnLossTerm ⟨[], [], [0, 1], 10, 0, true⟩
          (probTransform ⟨[], [], [0, 1], 10, 0, true⟩ 0) 0)) := by
  have h : ∀ l : ℝ, rnnLossTerm ⟨[], [], [0, 1], 10, 0, true⟩
      (probTransform ⟨[], [], [0, 1], 10, 0, true⟩ l) 0 = 0 := by
    intro l
    unfold rnnLossTerm probTransform
    simp [List.getD_cons_zero, div_self, Real.exp_ne_zero]
  exact ⟨by norm_num, by rw [h, h]; simp⟩

/-- C7 amended: holding everything else fixed, strictly increasing the
target's projection logit strictly decreases the negated data term,
provided `noise_ratio * noise[target]` is positive (with a zero noise
probability at the target the data term is constantly zero). -/
theorem C7_amended_monotone (cfg : NCEConfig) (t : ℕ) (l1 l2 : ℝ)
    (hl : l1 < l2) (hc : 0 < (cfg.noise_ratio : ℝ) * cfg.noise.getD t 0) :
    -(rnnLossTerm cfg (probTransform cfg l2) t) <
      -(rnnLossTerm cfg (probTransform cfg l1) t) := by
  have h1 : 0 < probTransform cfg l1 := Real.exp_pos _
  have h2 : 0 < probTransform cfg l2 := Real.exp_pos _
  have hx : probTransform cfg l1 < probTransform cfg l2 :=
    Real.exp_lt_exp.mpr (by linarith)
  apply neg_lt_neg
  unfold rnnLossTerm
  apply Real.log_lt_log
  · positivity
  · rw [div_lt_div_iff₀ (by linarith) (by linarith)]
    nlinarith [mul_pos (sub_pos.mpr hx) hc]

theorem C7_witness :
    (0 : ℝ) < 1 ∧
    (0 : ℝ) < ((⟨[], [], [1], 1, 0, true⟩ : NCEConfig).noise_ratio : ℝ) *
      (⟨[], [], [1], 1, 0, true⟩ : NCEConfig).noise.getD 0 0 ∧
    -(rnnLossTerm ⟨[], [], [1], 1, 0, true⟩
        (probTransform ⟨[], [], [1], 1, 0, true⟩ 1) 0) <
      -(rnnLossTerm ⟨[], [], [1], 1, 0, true⟩
        (probTransform ⟨[], [], [1], 1, 0, true⟩ 0) 0) :=
  ⟨by norm_num, by norm_num [List.getD_cons_zero],
    C7_amended_monotone ⟨[], [], [1], 1, 0, true⟩ 0 0 1 (by norm_num)
      (by norm_num [List.getD_cons_zero])⟩

/- ### Construction-time validation of the noise distribution -/

/-- C8 counterexample: constructing with a noise weight vector that has a
negative entry succeeds; `__init__` just stores the vector, performing no
validation at construction time. -/
theorem C8_counterexample :
    NCELoss_init 2 3 [-1, 2] 10 9 true none [[0, 0, 0], [0, 0, 0]] [0, 0] =
      Except.ok ⟨[[0, 0, 0], [0, 0, 0]], [0, 0], [-1, 2], 10, 9, true⟩ := rfl

/-- C8 amended: an invalid noise distribution (a negative entry or a
non-positive total mass) is accepted at construction time and the error
surfaces only at the first `forward` call with a nonempty batch, when
`torch.multinomial` rejects the stored weight vector. -/
theorem C8_amended_fail_at_forward (nt es : ℕ) (noise : List ℝ) (k : ℕ)
    (nrm : ℝ) (sa : Bool) (fw : List (List ℝ)) (fb : List ℝ)
    (input : List (List ℝ)) (target : List ℕ) (samples : List (List ℕ))
    (hbad : ¬ noiseValid noise) (hlen : input.length = target.length)
    (hne : target.length ≠ 0) :
    ∃ cfg : NCEConfig,
      NCELoss_init nt es noise k nrm sa none fw fb = Except.ok cfg ∧
      NCELoss_forward true cfg input target samples = Except.error multinomialMsg := by
  refine ⟨⟨fw, fb, noise, k, nrm, sa⟩, rfl, ?_⟩
  unfold NCELoss_forward
  rw [if_neg (by simp [hlen]), if_neg (by simp), if_pos ⟨hne, hbad⟩]

theorem C8_witness :
    ¬ noiseValid [(-1 : ℝ), 2] ∧
    ∃ cfg : NCEConfig,
      NCELoss_init 2 3 [(-1 : ℝ), 2] 10 9 true none [[0, 0, 0], [0, 0, 0]] [0, 0] =
        Except.ok cfg ∧
      NCELoss_forward true cfg [[1, 2, 3]] [0] [[1, 1]] =
        Except.error multinomialMsg := by
  have hbad : ¬ noiseValid [(-1 : ℝ), 2] := by
    intro hv
    have := hv.1 (-1) (by simp)
    norm_num at this
  exact ⟨hbad,
    C8_amended_fail_at_forward 2 3 _ 10 9 true _ _ _ _ _ hbad (by decide) (by decide)⟩

/- ### Device requirement -/

/-- C9 counterexample: a shape-correct call with every tensor in host
memory does not succeed: `forward` unconditionally moves its buffers to
CUDA and synchronizes, which fails when no CUDA context is available. -/
theorem C9_counterexample :
    NCELoss_forward false ⟨[[1]], [0], [1], 1, 9, true⟩ [[1]] [0] [[0]] =
      Except.error cudaMsg := by
  unfold NCELoss_forward
  rw [if_neg (by decide), if_pos rfl]

/-- C9 amended: `forward` requires a CUDA execution context: whenever the
batch shapes agree but no CUDA context is available, the call fails with a
CUDA error instead of computing in host memory. -/
theorem C9_amended_requires_cuda (cfg : NCEConfig) (input : List (List ℝ))
    (target : List ℕ) (samples : List (List ℕ))
    (hlen : input.length = target.length) :
    NCELoss_forward false cfg input target samples = Except.error cudaMsg := by
  unfold NCELoss_forward
  rw [if_neg (by simp [hlen]), if_pos rfl]

theorem C9_witness :
    ([[(1 : ℝ), 2]] : List (List ℝ)).length = ([3] : List ℕ).length ∧
    NCELoss_forward false ⟨[[1, 2]], [0], [1], 2, 9, false⟩ [[1, 2]] [3] [[0, 0]] =
      Except.error cudaMsg :=
  ⟨by decide, C9_amended_requires_cuda ⟨[[1, 2]], [0], [1], 2, 9, false⟩ _ _ _ (by decide)⟩

/- ### The `profile` decorator and module evaluation -/

/-- The global names bound in `nce.py` before the `NCELoss` class body is
evaluated: the imports `torch`, `nn`, `Variable`, `F` and the helper
function `take`.  `profile` is not among them. -/
def nceModuleBoundNames : List String := ["torch", "nn", "Variable", "F", "take"]

/-- Modelled from Python module-evaluation semantics: importing `nce.py`
binds the imports and `take`, then evaluates the `NCELoss` class body; the
decorator line `@profile` looks up the name `profile` among the module
globals together with any externally injected globals, and a failed lookup
raises `NameError`, aborting the import before `NCELoss` or `IndexLinear`
is defined. -/
def loadNCEModule (injected : List String) : Except String (List String) :=
  if "profile" ∈ nceModuleBoundNames ++ injected then
    Except.ok (nceModuleBoundNames ++ ["NCELoss", "IndexLinear"])
  else Except.error "NameError: name profile is not defined"

/-- C10: `profile` is neither defined nor imported by the module, so
importing it with no externally injected `profile` binding fails with a
`NameError` before `NCELoss` is even defined, while injecting a global
`profile` binding lets the module load. -/
theorem C10_profile_unbound (injected : List String) :
    "profile" ∉ nceModuleBoundNames ∧
    loadNCEModule [] = Except.error "NameError: name profile is not defined" ∧
    ("profile" ∈ injected →
      loadNCEModule injected = Except.ok (nceModuleBoundNames ++ ["NCELoss", "IndexLinear"])) := by
  refine ⟨by decide, by rfl, fun h => ?_⟩
  unfold loadNCEModule
  rw [if_pos (List.mem_append.mpr (Or.inr h))]

theorem C10_witness :
    "profile" ∈ (["profile"] : List String) ∧
    loadNCEModule ["profile"] =
      Except.ok (nceModuleBoundNames ++ ["NCELoss", "IndexLinear"]) :=
  ⟨by decide, (C10_profile_unbound ["profile"]).2.2 (by decide)⟩
